import Mathlib

/-!
Verification of the Oracle code-search engine's retrieval core against its
specification.  The definitions below are a shallow embedding of the
TypeScript source: JavaScript numbers are modelled as exact rationals,
JavaScript Maps as insertion-ordered association lists, and the stable
Array.sort as a stable insertion sort.  Effectful operations (file system,
database, model inference) are modelled by explicit environments, and the
calls a function makes are recorded in an explicit trace so that claims of
the form "does not invoke X" are statable.
-/

namespace Oracle

/-- Identifier of a ranked item: the source type is the union string | number. -/
inductive RRFId where
  | str (s : String)
  | num (n : Int)
deriving DecidableEq, Repr

/-- Input item of a ranked list.  The source items carry an id and an optional
score; the fusion algorithm only ever reads the id. -/
structure RRFItem where
  id : RRFId
  score : Option ℚ := none
deriving DecidableEq, Repr

/-- Output entry of the fusion: item id with accumulated RRF score. -/
structure RRFResult where
  id : RRFId
  score : ℚ
deriving DecidableEq, Repr

/-- Options record of reciprocalRankFusion; the field k is optional in the
source and defaults to 60. -/
structure RRFOptions where
  k : Option ℚ := none

/-- JavaScript Map.get on an insertion-ordered association list. -/
def mapGet : List (RRFId × ℚ) → RRFId → Option ℚ
  | [], _ => none
  | (k, v) :: rest, i => if k = i then some v else mapGet rest i

/-- JavaScript Map.set: updates the value in place if the key exists (keeping
its insertion position), otherwise appends the new binding at the end. -/
def mapSet : List (RRFId × ℚ) → RRFId → ℚ → List (RRFId × ℚ)
  | [], i, v => [(i, v)]
  | (k, w) :: rest, i, v =>
      if k = i then (k, v) :: rest else (k, w) :: mapSet rest i v

/-- The indexed for-loop inside reciprocalRankFusion that processes one ranked
list: the item at 0-based index rank contributes 1 / (rank + 1 + k) to its
accumulated score. -/
def processFrom (k : ℚ) : Nat → List (RRFId × ℚ) → List RRFItem → List (RRFId × ℚ)
  | _, scores, [] => scores
  | rank, scores, item :: rest =>
      let rrfScore : ℚ := 1 / ((rank : ℚ) + 1 + k)
      let currentScore := (mapGet scores item.id).getD 0
      processFrom k (rank + 1) (mapSet scores item.id (currentScore + rrfScore)) rest

/-- Processing of one ranked list; the rank counter starts at 0. -/
def processList (k : ℚ) (scores : List (RRFId × ℚ)) (rankedList : List RRFItem) :
    List (RRFId × ℚ) :=
  processFrom k 0 scores rankedList

/-- One insertion step of the stable descending sort by score. -/
def insertByScore (x : RRFResult) : List RRFResult → List RRFResult
  | [] => [x]
  | y :: ys => if y.score ≤ x.score then x :: y :: ys else y :: insertByScore x ys

/-- Stable sort by score descending, modelling the stable JavaScript
Array.prototype.sort with comparator (a, b) => b.score - a.score. -/
def sortByScoreDesc : List RRFResult → List RRFResult
  | [] => []
  | x :: xs => insertByScore x (sortByScoreDesc xs)

/-- The accumulation phase of reciprocalRankFusion: fold the per-list loop
over all ranked lists, starting from the empty map. -/
def accumulateScores (rankedLists : List (List RRFItem)) (k : ℚ) : List (RRFId × ℚ) :=
  rankedLists.foldl (processList k) []

/-- reciprocalRankFusion from the fusion module: for each list, the item at
0-based rank r accumulates 1 / (r + 1 + k) into a map keyed by item id; the
map entries are then emitted and sorted by score descending. -/
def reciprocalRankFusion (rankedLists : List (List RRFItem))
    (options : RRFOptions := {}) : List RRFResult :=
  let k := options.k.getD 60
  let scores := accumulateScores rankedLists k
  let results := scores.map (fun p => { id := p.1, score := p.2 : RRFResult })
  sortByScoreDesc results

/-- C1: RRF applied to L1=[A,B,C] and L2=[B,C,D] with k=60 returns the ids in
the order [B, C, A, D], with accumulated score 1/61 + 1/62 for B,
1/62 + 1/63 for C, 1/61 for A and 1/63 for D (exact rational arithmetic). -/
theorem rrf_concrete_example :
    reciprocalRankFusion
      [[{ id := .str "A" }, { id := .str "B" }, { id := .str "C" }],
       [{ id := .str "B" }, { id := .str "C" }, { id := .str "D" }]]
      { k := some 60 } =
      [{ id := .str "B", score := 1/61 + 1/62 },
       { id := .str "C", score := 1/62 + 1/63 },
       { id := .str "A", score := 1/61 },
       { id := .str "D", score := 1/63 }] := by
  have hAB : ("A" : String) ≠ "B" := by decide
  have hAC : ("A" : String) ≠ "C" := by decide
  have hAD : ("A" : String) ≠ "D" := by decide
  have hBC : ("B" : String) ≠ "C" := by decide
  have hBD : ("B" : String) ≠ "D" := by decide
  have hCD : ("C" : String) ≠ "D" := by decide
  norm_num [reciprocalRankFusion, accumulateScores, processList, processFrom,
    mapGet, mapSet, sortByScoreDesc, insertByScore, hAB, hAC, hAD, hBC, hBD, hCD,
    hAB.symm, hAC.symm, hAD.symm, hBC.symm, hBD.symm, hCD.symm]

/-- Accumulator contents produced by one ranked list whose ids are all fresh:
the item at index r is bound to 1 / (r + 1 + k), in list order. -/
def rankedContrib (k : ℚ) : Nat → List RRFItem → List (RRFId × ℚ)
  | _, [] => []
  | r, item :: rest => (item.id, 1 / ((r : ℚ) + 1 + k)) :: rankedContrib k (r + 1) rest

theorem mapGet_append_of_none {m : List (RRFId × ℚ)} (m' : List (RRFId × ℚ)) {i : RRFId}
    (h : mapGet m i = none) : mapGet (m ++ m') i = mapGet m' i := by
  induction m with
  | nil => rfl
  | cons p rest ih =>
      rw [mapGet] at h
      rw [List.cons_append, mapGet]
      split at h
      · exact absurd h (by simp)
      · rw [if_neg (by assumption)]
        exact ih h

theorem mapSet_fresh {m : List (RRFId × ℚ)} {i : RRFId} (v : ℚ)
    (h : mapGet m i = none) : mapSet m i v = m ++ [(i, v)] := by
  induction m with
  | nil => rfl
  | cons p rest ih =>
      rw [mapGet] at h
      split at h
      · exact absurd h (by simp)
      · rw [mapSet, if_neg (by assumption), List.cons_append, ih h]

theorem processFrom_fresh (k : ℚ) :
    ∀ (l : List RRFItem) (r : Nat) (m : List (RRFId × ℚ)),
      (∀ item ∈ l, mapGet m item.id = none) → (l.map RRFItem.id).Nodup →
      processFrom k r m l = m ++ rankedContrib k r l := by
  intro l
  induction l with
  | nil => intro r m _ _; simp [processFrom, rankedContrib]
  | cons item rest ih =>
      intro r m hfresh hnd
      have hitem : mapGet m item.id = none := hfresh item (List.mem_cons_self _ _)
      rw [List.map_cons, List.nodup_cons] at hnd
      rw [processFrom]
      simp only [hitem, Option.getD_none, zero_add]
      rw [mapSet_fresh _ hitem]
      rw [ih (r + 1) _ ?fresh hnd.2]
      · rw [rankedContrib, List.append_assoc, List.singleton_append]
      case fresh =>
        intro it hit
        have hne : it.id ≠ item.id := by
          intro he
          exact hnd.1 (he ▸ List.mem_map_of_mem RRFItem.id hit)
        rw [mapGet_append_of_none _ (hfresh it (List.mem_cons_of_mem _ hit))]
        simp [mapGet, hne.symm]

theorem mem_rankedContrib_score (k : ℚ) :
    ∀ {l : List RRFItem} {r : Nat} {p : RRFId × ℚ}, p ∈ rankedContrib k r l →
      ∃ j : Nat, r ≤ j ∧ p.2 = 1 / ((j : ℚ) + 1 + k) := by
  intro l
  induction l with
  | nil => intro r p h; simp [rankedContrib] at h
  | cons item rest ih =>
      intro r p h
      rw [rankedContrib, List.mem_cons] at h
      rcases h with h | h
      · exact ⟨r, le_refl r, by rw [h]⟩
      · obtain ⟨j, hj, hp⟩ := ih h
        exact ⟨j, Nat.le_of_succ_le hj, hp⟩

theorem rankedContrib_pairwise (k : ℚ) (hk : 1 ≤ k) :
    ∀ (l : List RRFItem) (r : Nat),
      (rankedContrib k r l).Pairwise (fun a b => b.2 ≤ a.2) := by
  intro l
  induction l with
  | nil => intro r; simp [rankedContrib]
  | cons item rest ih =>
      intro r
      rw [rankedContrib]
      refine List.Pairwise.cons ?head (ih (r + 1))
      intro p hp
      obtain ⟨j, hj, hp2⟩ := mem_rankedContrib_score k hp
      rw [hp2]
      have hpos : (0 : ℚ) < (r : ℚ) + 1 + k := by
        have : (0 : ℚ) ≤ (r : ℚ) := Nat.cast_nonneg r
        linarith
      refine one_div_le_one_div_of_le hpos ?_
      have : (r : ℚ) ≤ (j : ℚ) := by exact_mod_cast Nat.le_of_succ_le hj
      linarith

theorem rankedContrib_keys (k : ℚ) :
    ∀ (l : List RRFItem) (r : Nat),
      (rankedContrib k r l).map Prod.fst = l.map RRFItem.id := by
  intro l
  induction l with
  | nil => intro r; rfl
  | cons item rest ih => intro r; rw [rankedContrib, List.map_cons, List.map_cons, ih]

theorem sortByScoreDesc_eq_self {l : List RRFResult}
    (h : l.Pairwise (fun a b => b.score ≤ a.score)) : sortByScoreDesc l = l := by
  induction l with
  | nil => rfl
  | cons x xs ih =>
      rw [List.pairwise_cons] at h
      rw [sortByScoreDesc, ih h.2]
      cases xs with
      | nil => rfl
      | cons y ys =>
          rw [insertByScore, if_pos (h.1 y (List.mem_cons_self _ _))]

/-- C2 counterexample: on a single list that repeats the id A, the fusion
collapses the two occurrences into one map entry, so the output id sequence
is [A], not the input id sequence [A, A]. -/
theorem rrf_single_list_duplicate_cex :
    (reciprocalRankFusion [[{ id := .str "A" }, { id := .str "A" }]]
        { k := some 1 }).map RRFResult.id ≠
      ([{ id := .str "A" }, { id := .str "A" }] : List RRFItem).map RRFItem.id := by
  norm_num [reciprocalRankFusion, accumulateScores, processList, processFrom,
    mapGet, mapSet, sortByScoreDesc, insertByScore]

/-- C2 (amended): for every ranked list L whose ids are pairwise distinct and
every k at least 1, fusing the single list L returns its ids in the same
order as L. -/
theorem rrf_single_list_preserves_order (L : List RRFItem) (k : ℚ) (hk : 1 ≤ k)
    (hnd : (L.map RRFItem.id).Nodup) :
    (reciprocalRankFusion [L] { k := some k }).map RRFResult.id = L.map RRFItem.id := by
  have hacc : accumulateScores [L] k = rankedContrib k 0 L := by
    rw [accumulateScores, List.foldl_cons, List.foldl_nil, processList]
    rw [processFrom_fresh k L 0 [] (fun _ _ => rfl) hnd, List.nil_append]
  rw [reciprocalRankFusion]
  simp only [Option.getD_some, hacc]
  rw [sortByScoreDesc_eq_self]
  · rw [List.map_map]
    have hcomp : (RRFResult.id ∘ fun p : RRFId × ℚ =>
        ({ id := p.1, score := p.2 } : RRFResult)) = Prod.fst := rfl
    rw [hcomp, rankedContrib_keys]
  · refine List.Pairwise.map _ ?_ (rankedContrib_pairwise k hk L 0)
    intro a b hab
    exact hab

/-- Witness for C2: a concrete two-element list with distinct ids and k = 1. -/
theorem rrf_single_list_preserves_order_witness :
    (1 : ℚ) ≤ 1 ∧
    (([{ id := .str "A" }, { id := .str "B" }] : List RRFItem).map RRFItem.id).Nodup ∧
    (reciprocalRankFusion [[{ id := .str "A" }, { id := .str "B" }]]
        { k := some 1 }).map RRFResult.id =
      ([{ id := .str "A" }, { id := .str "B" }] : List RRFItem).map RRFItem.id :=
  ⟨le_refl 1, by decide,
   rrf_single_list_preserves_order _ 1 (le_refl 1) (by decide)⟩

/-- Total contribution of one ranked list, starting at the given rank, to the
accumulated score of the id i. -/
def contribFrom (k : ℚ) : Nat → List RRFItem → RRFId → ℚ
  | _, [], _ => 0
  | r, item :: rest, i =>
      (if item.id = i then 1 / ((r : ℚ) + 1 + k) else 0) + contribFrom k (r + 1) rest i

/-- Accumulated RRF score of an id over all input lists. -/
def totalContrib (k : ℚ) (rankedLists : List (List RRFItem)) (i : RRFId) : ℚ :=
  (rankedLists.map (fun l => contribFrom k 0 l i)).sum

/-- Score that the accumulator map assigns to an id (0 when absent). -/
def scoreOf (m : List (RRFId × ℚ)) (i : RRFId) : ℚ := (mapGet m i).getD 0

/-- Accumulated score that reciprocalRankFusion assigns to an id. -/
def rrfScore (rankedLists : List (List RRFItem)) (options : RRFOptions) (i : RRFId) : ℚ :=
  scoreOf (accumulateScores rankedLists (options.k.getD 60)) i

/-- The id a occurs before the id b in the output sequence. -/
def appearsBeforeIn (a b : RRFId) (results : List RRFResult) : Prop :=
  [a, b].Sublist (results.map RRFResult.id)

theorem reciprocalRankFusion_eq (rankedLists : List (List RRFItem)) (options : RRFOptions) :
    reciprocalRankFusion rankedLists options =
      sortByScoreDesc ((accumulateScores rankedLists (options.k.getD 60)).map
        (fun p => { id := p.1, score := p.2 })) := rfl

theorem mapGet_mapSet (m : List (RRFId × ℚ)) (i j : RRFId) (v : ℚ) :
    mapGet (mapSet m i v) j = if i = j then some v else mapGet m j := by
  induction m with
  | nil => simp [mapSet, mapGet]
  | cons p rest ih =>
      obtain ⟨k0, w⟩ := p
      rw [mapSet]
      by_cases h1 : k0 = i
      · subst h1
        by_cases h2 : k0 = j <;> simp [mapGet, h2]
      · rw [if_neg h1, mapGet, mapGet, ih]
        by_cases h2 : k0 = j
        · subst h2
          rw [if_pos rfl, if_pos rfl, if_neg (fun h => h1 h.symm)]
        · rw [if_neg h2, if_neg h2]

theorem scoreOf_mapSet (m : List (RRFId × ℚ)) (i j : RRFId) (v : ℚ) :
    scoreOf (mapSet m i v) j = if i = j then v else scoreOf m j := by
  rw [scoreOf, mapGet_mapSet, scoreOf]
  by_cases h : i = j <;> simp [h]

theorem scoreOf_processFrom (k : ℚ) :
    ∀ (l : List RRFItem) (r : Nat) (m : List (RRFId × ℚ)) (i : RRFId),
      scoreOf (processFrom k r m l) i = scoreOf m i + contribFrom k r l i := by
  intro l
  induction l with
  | nil => intro r m i; simp [processFrom, contribFrom]
  | cons item rest ih =>
      intro r m i
      simp only [processFrom, contribFrom]
      rw [ih, scoreOf_mapSet]
      by_cases h : item.id = i
      · rw [if_pos h, if_pos h, ← h]
        simp only [scoreOf]
        ring
      · rw [if_neg h, if_neg h, zero_add]

theorem scoreOf_processList (k : ℚ) (m : List (RRFId × ℚ)) (l : List RRFItem) (i : RRFId) :
    scoreOf (processList k m l) i = scoreOf m i + contribFrom k 0 l i :=
  scoreOf_processFrom k l 0 m i

theorem scoreOf_foldl (k : ℚ) :
    ∀ (lists : List (List RRFItem)) (m : List (RRFId × ℚ)) (i : RRFId),
      scoreOf (lists.foldl (processList k) m) i = scoreOf m i + totalContrib k lists i := by
  intro lists
  induction lists with
  | nil => intro m i; simp [totalContrib]
  | cons l ls ih =>
      intro m i
      rw [List.foldl_cons, ih, scoreOf_processList, totalContrib, totalContrib,
        List.map_cons, List.sum_cons]
      ring

theorem scoreOf_accumulateScores (k : ℚ) (lists : List (List RRFItem)) (i : RRFId) :
    scoreOf (accumulateScores lists k) i = totalContrib k lists i := by
  rw [accumulateScores, scoreOf_foldl]
  simp [scoreOf, mapGet]

theorem mapGet_eq_none_iff (i : RRFId) :
    ∀ (m : List (RRFId × ℚ)), mapGet m i = none ↔ i ∉ m.map Prod.fst := by
  intro m
  induction m with
  | nil => simp [mapGet]
  | cons p rest ih =>
      obtain ⟨k0, w⟩ := p
      rw [mapGet, List.map_cons, List.mem_cons]
      by_cases h : k0 = i
      · subst h; simp
      · rw [if_neg h, ih]
        constructor
        · intro hn hor
          rcases hor with he | hm
          · exact h he.symm
          · exact hn hm
        · intro hn hm
          exact hn (Or.inr hm)

theorem mem_mapKeys_mapSet (i : RRFId) (v : ℚ) (j : RRFId) :
    ∀ (m : List (RRFId × ℚ)),
      (j ∈ (mapSet m i v).map Prod.fst ↔ j ∈ m.map Prod.fst ∨ j = i) := by
  intro m
  induction m with
  | nil => simp [mapSet]
  | cons p rest ih =>
      obtain ⟨k0, w⟩ := p
      rw [mapSet]
      by_cases h : k0 = i
      · subst h; simp
        tauto
      · rw [if_neg h]
        simp only [List.map_cons, List.mem_cons, ih]
        tauto

theorem mem_keys_processFrom (k : ℚ) (i : RRFId) :
    ∀ (l : List RRFItem) (r : Nat) (m : List (RRFId × ℚ)),
      (i ∈ (processFrom k r m l).map Prod.fst ↔
        i ∈ m.map Prod.fst ∨ i ∈ l.map RRFItem.id) := by
  intro l
  induction l with
  | nil => intro r m; simp [processFrom]
  | cons item rest ih =>
      intro r m
      rw [processFrom]
      rw [ih, mem_mapKeys_mapSet]
      simp only [List.map_cons, List.mem_cons]
      tauto

theorem mem_keys_foldl (k : ℚ) (i : RRFId) :
    ∀ (lists : List (List RRFItem)) (m : List (RRFId × ℚ)),
      (i ∈ (lists.foldl (processList k) m).map Prod.fst ↔
        i ∈ m.map Prod.fst ∨ ∃ l ∈ lists, i ∈ l.map RRFItem.id) := by
  intro lists
  induction lists with
  | nil => intro m; simp
  | cons l ls ih =>
      intro m
      rw [List.foldl_cons, ih, processList, mem_keys_processFrom]
      simp only [List.mem_cons]
      constructor
      · rintro ((hm | hl) | ⟨l', hl', hi⟩)
        · exact Or.inl hm
        · exact Or.inr ⟨l, Or.inl rfl, hl⟩
        · exact Or.inr ⟨l', Or.inr hl', hi⟩
      · rintro (hm | ⟨l', hl' | hl', hi⟩)
        · exact Or.inl (Or.inl hm)
        · exact Or.inl (Or.inr (hl' ▸ hi))
        · exact Or.inr ⟨l', hl', hi⟩

theorem mem_keys_accumulateScores (k : ℚ) (lists : List (List RRFItem)) (i : RRFId) :
    i ∈ (accumulateScores lists k).map Prod.fst ↔ ∃ l ∈ lists, i ∈ l.map RRFItem.id := by
  rw [accumulateScores, mem_keys_foldl]
  simp

theorem mapSet_keys_of_mem {i : RRFId} {w : ℚ} (v : ℚ) :
    ∀ {m : List (RRFId × ℚ)}, mapGet m i = some w →
      (mapSet m i v).map Prod.fst = m.map Prod.fst := by
  intro m
  induction m with
  | nil => intro h; exact absurd h (by simp [mapGet])
  | cons p rest ih =>
      obtain ⟨k0, u⟩ := p
      intro h
      rw [mapGet] at h
      rw [mapSet]
      by_cases hk : k0 = i
      · rw [if_pos hk]; rfl
      · rw [if_neg hk] at h ⊢
        rw [List.map_cons, List.map_cons, ih h]

theorem keysNodup_mapSet (m : List (RRFId × ℚ)) (i : RRFId) (v : ℚ)
    (h : (m.map Prod.fst).Nodup) : ((mapSet m i v).map Prod.fst).Nodup := by
  cases hg : mapGet m i with
  | none =>
      rw [mapSet_fresh v hg, List.map_append]
      rw [List.nodup_append]
      refine ⟨h, List.nodup_singleton i, ?_⟩
      intro j hj hj'
      simp only [List.map_cons, List.map_nil, List.mem_singleton] at hj'
      exact (mapGet_eq_none_iff i m).mp hg (hj' ▸ hj)
  | some w => rw [mapSet_keys_of_mem v hg]; exact h

theorem keysNodup_processFrom (k : ℚ) :
    ∀ (l : List RRFItem) (r : Nat) (m : List (RRFId × ℚ)),
      (m.map Prod.fst).Nodup → ((processFrom k r m l).map Prod.fst).Nodup := by
  intro l
  induction l with
  | nil => intro r m h; exact h
  | cons item rest ih =>
      intro r m h
      rw [processFrom]
      exact ih (r + 1) _ (keysNodup_mapSet m item.id _ h)

theorem keysNodup_accumulateScores (lists : List (List RRFItem)) (k : ℚ) :
    ((accumulateScores lists k).map Prod.fst).Nodup := by
  rw [accumulateScores]
  have hgen : ∀ (ls : List (List RRFItem)) (m : List (RRFId × ℚ)),
      (m.map Prod.fst).Nodup → ((ls.foldl (processList k) m).map Prod.fst).Nodup := by
    intro ls
    induction ls with
    | nil => intro m h; exact h
    | cons l ls' ih =>
        intro m h
        rw [List.foldl_cons]
        exact ih _ (keysNodup_processFrom k l 0 m h)
  exact hgen lists [] (by simp)

theorem mem_iff_mapGet {m : List (RRFId × ℚ)} (h : (m.map Prod.fst).Nodup)
    (i : RRFId) (s : ℚ) : (i, s) ∈ m ↔ mapGet m i = some s := by
  induction m with
  | nil => simp [mapGet]
  | cons p rest ih =>
      obtain ⟨k0, w⟩ := p
      rw [List.map_cons, List.nodup_cons] at h
      rw [List.mem_cons, mapGet]
      by_cases hk : k0 = i
      · subst hk
        rw [if_pos rfl]
        constructor
        · rintro (he | hm)
          · rw [Prod.mk.injEq] at he
            rw [he.2]
          · exact absurd (List.mem_map_of_mem Prod.fst hm) h.1
        · intro hs
          rw [Option.some.injEq] at hs
          exact Or.inl (by rw [hs])
      · rw [if_neg hk, ← ih h.2]
        constructor
        · rintro (he | hm)
          · rw [Prod.mk.injEq] at he
            exact absurd he.1.symm hk
          · exact hm
        · exact Or.inr

theorem insertByScore_perm (x : RRFResult) :
    ∀ (l : List RRFResult), (insertByScore x l).Perm (x :: l) := by
  intro l
  induction l with
  | nil => exact List.Perm.refl _
  | cons y ys ih =>
      rw [insertByScore]
      by_cases h : y.score ≤ x.score
      · rw [if_pos h]
      · rw [if_neg h]
        exact (ih.cons y).trans (List.Perm.swap x y ys)

theorem sortByScoreDesc_perm : ∀ (l : List RRFResult), (sortByScoreDesc l).Perm l := by
  intro l
  induction l with
  | nil => exact List.Perm.refl _
  | cons x xs ih =>
      rw [sortByScoreDesc]
      exact (insertByScore_perm x _).trans (ih.cons x)

theorem insertByScore_pairwise (x : RRFResult) :
    ∀ {l : List RRFResult}, l.Pairwise (fun a b => b.score ≤ a.score) →
      (insertByScore x l).Pairwise (fun a b => b.score ≤ a.score) := by
  intro l
  induction l with
  | nil => intro _; simp [insertByScore]
  | cons y ys ih =>
      intro h
      rw [List.pairwise_cons] at h
      rw [insertByScore]
      by_cases hyx : y.score ≤ x.score
      · rw [if_pos hyx]
        refine List.Pairwise.cons ?_ (List.Pairwise.cons h.1 h.2)
        intro z hz
        rcases List.mem_cons.mp hz with hz | hz
        · exact hz ▸ hyx
        · exact le_trans (h.1 z hz) hyx
      · rw [if_neg hyx]
        refine List.Pairwise.cons ?_ (ih h.2)
        intro z hz
        rcases List.mem_cons.mp ((insertByScore_perm x ys).mem_iff.mp hz) with hz | hz
        · rw [hz]; exact le_of_lt (not_le.mp hyx)
        · exact h.1 z hz

theorem sortByScoreDesc_pairwise :
    ∀ (l : List RRFResult),
      (sortByScoreDesc l).Pairwise (fun a b => b.score ≤ a.score) := by
  intro l
  induction l with
  | nil => simp [sortByScoreDesc]
  | cons x xs ih =>
      rw [sortByScoreDesc]
      exact insertByScore_pairwise x ih

theorem pair_sublist_of_mem {l : List RRFResult} {g : RRFId → ℚ}
    (hs : l.Pairwise (fun a b => b.score ≤ a.score))
    (hg : ∀ r ∈ l, r.score = g r.id) {a b : RRFId} (hab : g b < g a)
    (ha : a ∈ l.map RRFResult.id) (hb : b ∈ l.map RRFResult.id) :
    [a, b].Sublist (l.map RRFResult.id) := by
  induction l with
  | nil => simp at ha
  | cons x xs ih =>
      rw [List.pairwise_cons] at hs
      rw [List.map_cons] at ha hb ⊢
      by_cases hxa : x.id = a
      · have hba : b ≠ a := fun he => absurd hab (by rw [he]; exact lt_irrefl _)
        have hbxs : b ∈ xs.map RRFResult.id := by
          rcases List.mem_cons.mp hb with hbx | hbx
          · exact absurd (hbx.trans hxa) hba
          · exact hbx
        rw [hxa]
        exact List.Sublist.cons₂ a (List.singleton_sublist.mpr hbxs)
      · by_cases hxb : x.id = b
        · exfalso
          have hain : a ∈ xs.map RRFResult.id := by
            rcases List.mem_cons.mp ha with hax | hax
            · exact absurd hax.symm hxa
            · exact hax
          obtain ⟨r, hr, hrid⟩ := List.mem_map.mp hain
          have h1 : r.score ≤ x.score := hs.1 r hr
          have h2 : x.score = g b := by
            rw [← hxb]; exact hg x (List.mem_cons_self _ _)
          have h3 : r.score = g a := by
            rw [← hrid]; exact hg r (List.mem_cons_of_mem _ hr)
          rw [h2, h3] at h1
          exact absurd hab (not_lt.mpr h1)
        · have ha' : a ∈ xs.map RRFResult.id :=
            (List.mem_cons.mp ha).resolve_left (fun he => hxa he.symm)
          have hb' : b ∈ xs.map RRFResult.id :=
            (List.mem_cons.mp hb).resolve_left (fun he => hxb he.symm)
          exact List.Sublist.cons _
            (ih hs.2 (fun r hr => hg r (List.mem_cons_of_mem _ hr)) ha' hb')

theorem not_pair_sublist {l : List RRFResult} {g : RRFId → ℚ}
    (hs : l.Pairwise (fun a b => b.score ≤ a.score))
    (hg : ∀ r ∈ l, r.score = g r.id) {a b : RRFId} (hab : g a < g b) :
    ¬ [a, b].Sublist (l.map RRFResult.id) := by
  intro h
  obtain ⟨l', hl', heq⟩ := List.sublist_map_iff.mp h
  obtain ⟨r1, t1, hl1, hr1, ht⟩ := List.map_eq_cons_iff.mp heq.symm
  obtain ⟨r2, t2, hl2, hr2, ht2⟩ := List.map_eq_cons_iff.mp ht
  have ht2nil : t2 = [] := List.eq_nil_of_map_eq_nil ht2
  subst ht2nil hl2 hl1
  have hpl : ([r1, r2] : List RRFResult).Pairwise (fun a b => b.score ≤ a.score) :=
    List.Pairwise.sublist hl' hs
  have h12 : r2.score ≤ r1.score := by
    rw [List.pairwise_cons] at hpl
    exact hpl.1 r2 (List.mem_singleton.mpr rfl)
  have hm1 : r1 ∈ l := hl'.subset (List.mem_cons_self _ _)
  have hm2 : r2 ∈ l := hl'.subset (List.mem_cons_of_mem _ (List.mem_singleton.mpr rfl))
  rw [hg r1 hm1, hg r2 hm2, hr1, hr2] at h12
  exact absurd hab (not_lt.mpr h12)

theorem rrf_score_consistency (lists : List (List RRFItem)) (options : RRFOptions) :
    ∀ r ∈ reciprocalRankFusion lists options, r.score = rrfScore lists options r.id := by
  intro r hr
  rw [reciprocalRankFusion_eq] at hr
  have hr' := (sortByScoreDesc_perm _).mem_iff.mp hr
  obtain ⟨p, hp, hpr⟩ := List.mem_map.mp hr'
  have hget := (mem_iff_mapGet (keysNodup_accumulateScores lists (options.k.getD 60))
    p.1 p.2).mp hp
  rw [← hpr]
  simp only [rrfScore, scoreOf, hget, Option.getD_some]

theorem rrf_mem_ids (lists : List (List RRFItem)) (options : RRFOptions) (i : RRFId) :
    i ∈ (reciprocalRankFusion lists options).map RRFResult.id ↔
      ∃ l ∈ lists, i ∈ l.map RRFItem.id := by
  rw [reciprocalRankFusion_eq]
  rw [((sortByScoreDesc_perm _).map RRFResult.id).mem_iff]
  rw [List.map_map]
  have hcomp : (RRFResult.id ∘ fun p : RRFId × ℚ =>
      ({ id := p.1, score := p.2 } : RRFResult)) = Prod.fst := rfl
  rw [hcomp]
  exact mem_keys_accumulateScores _ lists i

/-- C3: for every list of ranked lists, every options record and every
permutation of the input lists, the fusion assigns the same accumulated score
to every id, and the two output orders agree on every pair of ids whose
scores differ. -/
theorem rrf_perm_invariant (lists lists' : List (List RRFItem)) (options : RRFOptions)
    (hperm : lists.Perm lists') :
    (∀ i, rrfScore lists options i = rrfScore lists' options i) ∧
    (∀ a b, rrfScore lists options a ≠ rrfScore lists options b →
      (appearsBeforeIn a b (reciprocalRankFusion lists options) ↔
        appearsBeforeIn a b (reciprocalRankFusion lists' options))) := by
  have hsc : ∀ i, rrfScore lists options i = rrfScore lists' options i := by
    intro i
    rw [rrfScore, rrfScore, scoreOf_accumulateScores, scoreOf_accumulateScores,
      totalContrib, totalContrib]
    exact List.Perm.sum_eq (hperm.map _)
  refine ⟨hsc, ?_⟩
  intro a b hab
  have hs1 : (reciprocalRankFusion lists options).Pairwise
      (fun a b => b.score ≤ a.score) := by
    rw [reciprocalRankFusion_eq]; exact sortByScoreDesc_pairwise _
  have hs2 : (reciprocalRankFusion lists' options).Pairwise
      (fun a b => b.score ≤ a.score) := by
    rw [reciprocalRankFusion_eq]; exact sortByScoreDesc_pairwise _
  have hg1 : ∀ r ∈ reciprocalRankFusion lists options,
      r.score = rrfScore lists options r.id := rrf_score_consistency lists options
  have hg2 : ∀ r ∈ reciprocalRankFusion lists' options,
      r.score = rrfScore lists options r.id := by
    intro r hr
    rw [rrf_score_consistency lists' options r hr, hsc]
  rcases lt_or_gt_of_ne hab with h | h
  · constructor
    · intro hc; exact absurd hc (not_pair_sublist hs1 hg1 h)
    · intro hc; exact absurd hc (not_pair_sublist hs2 hg2 h)
  · have hmem : ∀ i, (i ∈ (reciprocalRankFusion lists options).map RRFResult.id ↔
        i ∈ (reciprocalRankFusion lists' options).map RRFResult.id) := by
      intro i
      rw [rrf_mem_ids, rrf_mem_ids]
      constructor
      · rintro ⟨l, hl, hi⟩; exact ⟨l, hperm.subset hl, hi⟩
      · rintro ⟨l, hl, hi⟩; exact ⟨l, hperm.symm.subset hl, hi⟩
    constructor
    · intro hc
      exact pair_sublist_of_mem hs2 hg2 h
        ((hmem a).mp (hc.subset (by simp)))
        ((hmem b).mp (hc.subset (by simp)))
    · intro hc
      exact pair_sublist_of_mem hs1 hg1 h
        ((hmem a).mpr (hc.subset (by simp)))
        ((hmem b).mpr (hc.subset (by simp)))

/-- Witness for C3: two concrete lists swapped, evaluated at ids A and B whose
scores differ (2/61 versus 1/62 with the default k = 60). -/
theorem rrf_perm_invariant_witness :
    ([[{ id := .str "A" }, { id := .str "B" }], [{ id := .str "A" }]] :
        List (List RRFItem)).Perm
      [[{ id := .str "A" }], [{ id := .str "A" }, { id := .str "B" }]] ∧
    rrfScore [[{ id := .str "A" }, { id := .str "B" }], [{ id := .str "A" }]] {}
        (.str "A") =
      rrfScore [[{ id := .str "A" }], [{ id := .str "A" }, { id := .str "B" }]] {}
        (.str "A") ∧
    rrfScore [[{ id := .str "A" }, { id := .str "B" }], [{ id := .str "A" }]] {}
        (.str "A") ≠
      rrfScore [[{ id := .str "A" }, { id := .str "B" }], [{ id := .str "A" }]] {}
        (.str "B") ∧
    (appearsBeforeIn (.str "A") (.str "B")
        (reciprocalRankFusion
          [[{ id := .str "A" }, { id := .str "B" }], [{ id := .str "A" }]] {}) ↔
      appearsBeforeIn (.str "A") (.str "B")
        (reciprocalRankFusion
          [[{ id := .str "A" }], [{ id := .str "A" }, { id := .str "B" }]] {})) := by
  have hperm : ([[{ id := .str "A" }, { id := .str "B" }], [{ id := .str "A" }]] :
      List (List RRFItem)).Perm
        [[{ id := .str "A" }], [{ id := .str "A" }, { id := .str "B" }]] :=
    List.Perm.swap _ _ _
  have hAB : ("A" : String) ≠ "B" := by decide
  have hne : rrfScore [[{ id := .str "A" }, { id := .str "B" }], [{ id := .str "A" }]] {}
      (.str "A") ≠
        rrfScore [[{ id := .str "A" }, { id := .str "B" }], [{ id := .str "A" }]] {}
      (.str "B") := by
    norm_num [rrfScore, scoreOf, accumulateScores, processList, processFrom,
      mapGet, mapSet, hAB, hAB.symm]
  exact ⟨hperm, (rrf_perm_invariant _ _ _ hperm).1 _, hne,
    (rrf_perm_invariant _ _ _ hperm).2 _ _ hne⟩

/-- Candidate chunk passed to the reranker: numeric chunk id plus content. -/
structure RerankCandidate where
  id : Int
  content : String
deriving DecidableEq, Repr

/-- Reranking result: candidate id with relevance score. -/
structure RerankResult where
  id : Int
  score : ℚ
deriving DecidableEq, Repr

/-- ONNX reranker handle: the session and tokenizer are null when
initialization failed (modelled as Bool presence flags). -/
structure ONNXReranker where
  session : Bool
  tokenizer : Bool
deriving DecidableEq, Repr

/-- The mode tag of the combined reranker. -/
inductive RerankMode where
  | cohere
  | onnx
  | offline
deriving DecidableEq, Repr

/-- Combined reranker record with optional Cohere and ONNX handles. -/
structure Reranker where
  mode : RerankMode
  cohere : Option Unit := none
  onnx : Option ONNXReranker := none

/-- Model invocations a rerank call can perform. -/
inductive RerankCall where
  | cohereRerank
  | onnxInference
deriving DecidableEq, Repr

/-- Environment for the reranker: the remote Cohere batch call (which can
fail) and the per-candidate ONNX forward pass (which can throw). -/
structure RerankEnv where
  cohereRerank : String → List RerankCandidate → Int → Except String (List RerankResult)
  onnxScore : String → RerankCandidate → Except String ℚ

/-- JavaScript Array.slice(0, n): a negative end index counts from the end. -/
def jsSliceTo (l : List α) (n : Int) : List α :=
  if 0 ≤ n then l.take n.toNat else l.take (l.length - (Int.neg n).toNat)

/-- Stable insertion step for reranking results, score descending. -/
def insertRerankByScore (x : RerankResult) : List RerankResult → List RerankResult
  | [] => [x]
  | y :: ys => if y.score ≤ x.score then x :: y :: ys else y :: insertRerankByScore x ys

/-- Stable sort of reranking results by score descending. -/
def sortRerankByScoreDesc : List RerankResult → List RerankResult
  | [] => []
  | x :: xs => insertRerankByScore x (sortRerankByScoreDesc xs)

/-- The per-candidate scoring loop of rerankWithONNX; a failure aborts the
loop, and every started forward pass is recorded in the trace. -/
def scoreCandidates (env : RerankEnv) (query : String) :
    List RerankCandidate → List RerankCall × Except String (List RerankResult)
  | [] => ([], .ok [])
  | c :: rest =>
      match env.onnxScore query c with
      | .error e => ([.onnxInference], .error e)
      | .ok s =>
          let next := scoreCandidates env query rest
          (.onnxInference :: next.1,
            match next.2 with
            | .error e => .error e
            | .ok scored => .ok ({ id := c.id, score := s } :: scored))

/-- rerankWithONNX: passthrough when the session or tokenizer is null, else
score every candidate, sort descending, and slice the top N; any inference
error falls back to the sliced passthrough. -/
def rerankWithONNX (env : RerankEnv) (reranker : ONNXReranker) (query : String)
    (candidates : List RerankCandidate) (topN : Int) :
    List RerankResult × List RerankCall :=
  if !reranker.session || !reranker.tokenizer then
    ((jsSliceTo candidates topN).map (fun c => { id := c.id, score := 1 }), [])
  else
    match scoreCandidates env query candidates with
    | (calls, .ok scored) => (jsSliceTo (sortRerankByScoreDesc scored) topN, calls)
    | (calls, .error _) =>
        ((jsSliceTo candidates topN).map (fun c => { id := c.id, score := 1 }), calls)

/-- Shared fallback block of rerank: try ONNX when a handle is present, else
return the first topN candidates with score 1.0. -/
def rerankFallback (env : RerankEnv) (reranker : Reranker) (query : String)
    (candidates : List RerankCandidate) (topN : Int) :
    List RerankResult × List RerankCall :=
  match reranker.onnx with
  | some onnx => rerankWithONNX env onnx query candidates topN
  | none => ((jsSliceTo candidates topN).map (fun c => { id := c.id, score := 1 }), [])

/-- rerank: empty-candidates check, bypass when the candidate count is at most
topN, then Cohere (when in cohere mode with a handle), then the fallback. -/
def rerank (env : RerankEnv) (reranker : Reranker) (query : String)
    (candidates : List RerankCandidate) (topN : Int) :
    List RerankResult × List RerankCall :=
  if candidates.length = 0 then ([], [])
  else if (candidates.length : Int) ≤ topN then
    (candidates.map (fun c => { id := c.id, score := 1 }), [])
  else
    match reranker.mode, reranker.cohere with
    | RerankMode.cohere, some _ =>
        (match env.cohereRerank query candidates topN with
         | .ok results => (results, [.cohereRerank])
         | .error _ =>
             let next := rerankFallback env reranker query candidates topN
             (next.1, .cohereRerank :: next.2))
    | _, _ => rerankFallback env reranker query candidates topN

/-- C4: for every query, non-empty candidate list and topN, if the number of
candidates is at most topN then rerank returns exactly the candidates in
input order with score 1.0 and performs no model invocation at all. -/
theorem rerank_bypass (env : RerankEnv) (reranker : Reranker) (query : String)
    (candidates : List RerankCandidate) (topN : Int)
    (hne : candidates ≠ []) (hlen : (candidates.length : Int) ≤ topN) :
    rerank env reranker query candidates topN =
      (candidates.map (fun c => { id := c.id, score := 1 }), []) := by
  rw [rerank, if_neg (fun h => hne (List.length_eq_zero.mp h)), if_pos hlen]

/-- Witness for C4: one candidate, topN = 12, a Cohere-mode reranker and an
environment whose model calls would fail if they were ever made. -/
theorem rerank_bypass_witness :
    ([({ id := 1, content := "x" } : RerankCandidate)] ≠ []) ∧
    ((([({ id := 1, content := "x" } : RerankCandidate)]).length : Int) ≤ 12) ∧
    rerank
      { cohereRerank := fun _ _ _ => .error "down",
        onnxScore := fun _ _ => .error "down" }
      { mode := RerankMode.cohere, cohere := some (), onnx := none } "q"
      [{ id := 1, content := "x" }] 12 =
      ([({ id := 1, content := "x" } : RerankCandidate)].map
        (fun c => { id := c.id, score := 1 }), []) :=
  ⟨by simp, by decide,
   rerank_bypass _ _ _ _ _ (by simp) (by decide)⟩

/-- Row of the chunks table; the id is absent on insert and present on
retrieval. -/
structure ChunkRow where
  id : Option Int := none
  filePath : String
  symbolName : Option String
  symbolType : String
  content : String
  contentHash : String
  startLine : Int
  endLine : Int
  language : String
deriving DecidableEq, Repr

/-- Hit returned by the BM25 searcher; the id is the string "file:line". -/
structure BM25Result where
  id : String
  filePath : String
  symbolName : String
  content : String
  startLine : Int
  endLine : Int
  score : ℚ
deriving DecidableEq, Repr

/-- Hit returned by the vector searcher; the id is the numeric chunk id. -/
structure VectorResult where
  id : Int
  score : ℚ
deriving DecidableEq, Repr

/-- Final hydrated search result of hybridSearch. -/
structure SearchResult where
  id : Int
  filePath : String
  symbolName : String
  content : String
  startLine : Int
  endLine : Int
  score : ℚ
deriving DecidableEq, Repr

/-- Options record of hybridSearch with the research-based defaults. -/
structure SearchOptions where
  bm25Limit : Option Int := none
  vectorLimit : Option Int := none
  fusionLimit : Option Int := none
  rrfK : Option ℚ := none

/-- External calls hybridSearch can make against the indices and the
embedder. -/
inductive SearchCall where
  | bm25Search
  | embed
  | vectorSearch
deriving DecidableEq, Repr

/-- Environment of the retrieval pipeline: the two indices, the embedder and
the chunk database. -/
structure SearchEnv where
  searchBM25 : String → Int → List BM25Result
  embedText : String → List ℚ
  searchVector : List ℚ → Int → List VectorResult
  dbChunkIdByFileLine : String → Int → Option Int
  getChunksByIds : List Int → List ChunkRow

/-- JavaScript String.prototype.trim: strip whitespace from both ends. -/
def jsTrim (s : String) : String :=
  String.mk (((s.toList.dropWhile Char.isWhitespace).reverse.dropWhile
    Char.isWhitespace).reverse)

/-- Map built by the JavaScript Map constructor: on duplicate keys the last
entry wins, so lookup scans the reversed entry list. -/
def lastEntryLookup (chunks : List ChunkRow) (i : Int) : Option ChunkRow :=
  chunks.reverse.find? (fun chunk => chunk.id == some i)

/-- mergeResults from the merger module: hydrates numeric fused ids with full
chunk rows, preserving order and dropping ids with no matching row. -/
def mergeResults (env : SearchEnv) (rrfResults : List (Int × ℚ)) : List SearchResult :=
  if rrfResults.length = 0 then []
  else
    let ids := rrfResults.map Prod.fst
    let chunks := env.getChunksByIds ids
    rrfResults.filterMap (fun r =>
      match lastEntryLookup chunks r.1 with
      | none => none
      | some chunk =>
          some { id := chunk.id.getD 0,
                 filePath := chunk.filePath,
                 symbolName := chunk.symbolName.getD "",
                 content := chunk.content,
                 startLine := chunk.startLine,
                 endLine := chunk.endLine,
                 score := r.2 })

/-- hybridSearch: empty-query guard, BM25 and embedding, vector search, RRF
fusion, truncation to fusionLimit, resolution of string ids through the
database, and hydration.  The second component records which of the index
and embedder operations were invoked. -/
def hybridSearch (env : SearchEnv) (query : String) (options : SearchOptions) :
    List SearchResult × List SearchCall :=
  if query = "" ∨ jsTrim query = "" then ([], [])
  else
    let bm25Limit := options.bm25Limit.getD 200
    let vectorLimit := options.vectorLimit.getD 100
    let fusionLimit := options.fusionLimit.getD 30
    let rrfK := options.rrfK.getD 60
    let bm25Results := env.searchBM25 query bm25Limit
    let queryEmbedding := env.embedText query
    let vectorResults := env.searchVector queryEmbedding vectorLimit
    let bm25Formatted := bm25Results.map (fun r => ({ id := .str r.id } : RRFItem))
    let vectorFormatted := vectorResults.map (fun r => ({ id := .num r.id } : RRFItem))
    let fusedResults :=
      reciprocalRankFusion [bm25Formatted, vectorFormatted] { k := some rrfK }
    let topFused := jsSliceTo fusedResults fusionLimit
    let bm25IdMap := bm25Results.filterMap (fun r =>
      match env.dbChunkIdByFileLine r.filePath r.startLine with
      | none => none
      | some cid => some (r.id, cid))
    let numericFusedResults := topFused.filterMap (fun r =>
      match r.id with
      | .str s =>
          match (bm25IdMap.find? (fun p => p.1 == s)).map Prod.snd with
          | none => none
          | some cid => if cid = 0 then none else some (cid, r.score)
      | .num n => some (n, r.score))
    (mergeResults env numericFusedResults,
      [.bm25Search, .embed, .vectorSearch])

/-- C5: for every query whose trimmed form is empty, hybridSearch returns the
empty result list and invokes neither the lexical search, nor the embedder,
nor the vector search. -/
theorem hybridSearch_empty_query (env : SearchEnv) (query : String)
    (options : SearchOptions) (h : jsTrim query = "") :
    hybridSearch env query options = ([], []) := by
  rw [hybridSearch, if_pos (Or.inr h)]

/-- Witness for C5: a whitespace-only query against an environment with a
non-empty index. -/
theorem hybridSearch_empty_query_witness :
    (jsTrim "  " = "") ∧
    hybridSearch
      { searchBM25 := fun _ _ =>
          [{ id := "a.ts:1", filePath := "a.ts", symbolName := "f", content := "x",
             startLine := 1, endLine := 2, score := 1 }],
        embedText := fun _ => [1],
        searchVector := fun _ _ => [{ id := 7, score := 1 }],
        dbChunkIdByFileLine := fun _ _ => some 7,
        getChunksByIds := fun _ => [] } "  " {} = ([], []) :=
  ⟨by decide, hybridSearch_empty_query _ "  " {} (by decide)⟩

/-- Chunk emitted by the AST chunker. -/
structure CodeChunk where
  content : String
  contentHash : String
  symbolName : Option String
  symbolType : String
  startLine : Int
  endLine : Int
  language : String
  filePath : String
deriving DecidableEq, Repr

/-- Statistics of an indexing run.  The wall-clock duration field of the
source is not modelled. -/
structure IndexStats where
  filesDiscovered : Nat
  filesProcessed : Nat
  filesFailed : Nat
  chunksCreated : Nat
deriving DecidableEq, Repr

/-- Mutations updateRepository can perform on the chunks table. -/
inductive DbOp where
  | deleteByFile (path : String)
  | insertBatch (rows : List ChunkRow)
deriving DecidableEq, Repr

/-- Outcome of updateRepository: either the git diff failed and the function
fell back to a full indexRepository run, or it performed an incremental
update with the given stats and table mutations. -/
inductive UpdateOutcome where
  | fellBackToFullIndex
  | updated (stats : IndexStats) (ops : List DbOp)
deriving DecidableEq, Repr

/-- Environment of the incremental indexer: git, file system, hasher, chunk
store and parsers. -/
structure UpdateEnv where
  repoPath : String
  gitDiff : Option (List String)
  readFile : String → Option String
  hashContent : String → String
  getChunksByFile : String → List ChunkRow
  parserForExt : String → Bool
  chunkFile : String → String → List CodeChunk

/-- JavaScript String.replace of every backslash by a forward slash. -/
def jsReplaceBackslash (s : String) : String :=
  String.map (fun c => if c = '\\' then '/' else c) s

/-- Absolute path built by updateRepository for a changed relative path. -/
def absolutePathOf (repoPath relPath : String) : String :=
  jsReplaceBackslash (repoPath ++ "/" ++ relPath)

/-- Stage 4 of updateRepository: the changed files that are scheduled for
re-indexing.  A file that cannot be read is skipped with a warning; otherwise
it is scheduled iff it has no stored chunks or some stored chunk's hash
differs from the hash of the file's whole current content. -/
def filesToReindex (env : UpdateEnv) (changedFilePaths : List String) : List String :=
  changedFilePaths.filterMap (fun relPath =>
    let absolutePath := absolutePathOf env.repoPath relPath
    match env.readFile absolutePath with
    | none => none
    | some content =>
        let currentHash := env.hashContent content
        let existingChunks := env.getChunksByFile absolutePath
        let needsReindex := existingChunks.length == 0 ||
          existingChunks.any (fun chunk => chunk.contentHash != currentHash)
        if needsReindex then some absolutePath else none)

/-- Index of the last occurrence of a character, as a 0-based position. -/
def lastIndexOfChar (l : List Char) (c : Char) : Option Nat :=
  ((l.enum.filter (fun p => p.2 == c)).map Prod.fst).getLast?

/-- Extension extraction of the indexer: substring from the last dot; when no
dot exists, lastIndexOf yields -1 and substring(-1) is the whole string. -/
def extOf (filePath : String) : String :=
  match lastIndexOfChar filePath.toList '.' with
  | none => filePath
  | some i => String.mk (filePath.toList.drop i)

/-- Stage 6 of updateRepository: the re-indexing loop, producing the counts of
processed and failed files and the accumulated chunk rows. -/
def reindexLoop (env : UpdateEnv) : List String → Nat × Nat × List ChunkRow
  | [] => (0, 0, [])
  | filePath :: rest =>
      let next := reindexLoop env rest
      if env.parserForExt (extOf filePath) = false then
        (next.1 + 1, next.2.1, next.2.2)
      else
        match env.readFile filePath with
        | none => (next.1, next.2.1 + 1, next.2.2)
        | some content =>
            let chunks := env.chunkFile filePath content
            let rows := chunks.map (fun chunk =>
              ({ filePath := chunk.filePath,
                 symbolName := chunk.symbolName,
                 symbolType := chunk.symbolType,
                 content := chunk.content,
                 contentHash := chunk.contentHash,
                 startLine := chunk.startLine,
                 endLine := chunk.endLine,
                 language := chunk.language } : ChunkRow))
            (next.1 + 1, next.2.1, rows ++ next.2.2)

/-- updateRepository: detect changed files via git (falling back to a full
index when that fails), filter them by content hash, delete the old chunks of
the scheduled files, re-chunk them and batch-insert the new rows. -/
def updateRepository (env : UpdateEnv) : UpdateOutcome :=
  match env.gitDiff with
  | none => UpdateOutcome.fellBackToFullIndex
  | some changedFilePaths =>
      if changedFilePaths.length = 0 then
        UpdateOutcome.updated
          { filesDiscovered := 0, filesProcessed := 0, filesFailed := 0,
            chunksCreated := 0 } []
      else
        let toReindex := filesToReindex env changedFilePaths
        if toReindex.length = 0 then
          UpdateOutcome.updated
            { filesDiscovered := toReindex.length, filesProcessed := 0,
              filesFailed := 0, chunksCreated := 0 } []
        else
          let deletes := toReindex.map DbOp.deleteByFile
          let loop := reindexLoop env toReindex
          let inserts :=
            if loop.2.2.length > 0 then [DbOp.insertBatch loop.2.2] else []
          UpdateOutcome.updated
            { filesDiscovered := toReindex.length, filesProcessed := loop.1,
              filesFailed := loop.2.1, chunksCreated := loop.2.2.length }
            (deletes ++ inserts)

theorem mem_filesToReindex_iff (env : UpdateEnv) (changedFilePaths : List String)
    (path : String) :
    path ∈ filesToReindex env changedFilePaths ↔
      ∃ relPath ∈ changedFilePaths, absolutePathOf env.repoPath relPath = path ∧
        ∃ content, env.readFile path = some content ∧
          (env.getChunksByFile path = [] ∨
            ∃ chunk ∈ env.getChunksByFile path,
              chunk.contentHash ≠ env.hashContent content) := by
  rw [filesToReindex, List.mem_filterMap]
  constructor
  · rintro ⟨relPath, hmem, hf⟩
    dsimp only at hf
    rcases hread : env.readFile (absolutePathOf env.repoPath relPath) with _ | content
    · rw [hread] at hf
      exact absurd hf (by simp)
    · rw [hread] at hf
      dsimp only at hf
      split at hf
      next hcond =>
        rw [Option.some.injEq] at hf
        subst hf
        refine ⟨relPath, hmem, rfl, content, hread, ?_⟩
        have hcond' : (env.getChunksByFile (absolutePathOf env.repoPath relPath)).length = 0 ∨
            ∃ chunk ∈ env.getChunksByFile (absolutePathOf env.repoPath relPath),
              chunk.contentHash ≠ env.hashContent content := by
          simpa [List.any_eq_true, bne_iff_ne] using hcond
        rcases hcond' with hc | hc
        · exact Or.inl (List.length_eq_zero.mp hc)
        · exact Or.inr hc
      next => exact absurd hf (by simp)
  · rintro ⟨relPath, hmem, habs, content, hread, hcond⟩
    refine ⟨relPath, hmem, ?_⟩
    have hcond' : ((env.getChunksByFile path).length == 0 ||
        (env.getChunksByFile path).any
          (fun chunk => chunk.contentHash != env.hashContent content)) = true := by
      simp only [Bool.or_eq_true, beq_iff_eq, List.any_eq_true, bne_iff_ne]
      rcases hcond with hc | hc
      · exact Or.inl (by rw [hc]; rfl)
      · exact Or.inr hc
    dsimp only
    rw [habs, hread]
    dsimp only
    rw [if_pos hcond']

/-- C6: a changed file with readable content is scheduled for re-indexing iff
it has no stored chunks for its absolute path or some stored chunk's hash
differs from the hash of the file's entire current content. -/
theorem updateRepository_reindex_condition (env : UpdateEnv)
    (changedFilePaths : List String) (relPath : String) (content : String)
    (hmem : relPath ∈ changedFilePaths)
    (hread : env.readFile (absolutePathOf env.repoPath relPath) = some content) :
    absolutePathOf env.repoPath relPath ∈ filesToReindex env changedFilePaths ↔
      (env.getChunksByFile (absolutePathOf env.repoPath relPath) = [] ∨
        ∃ chunk ∈ env.getChunksByFile (absolutePathOf env.repoPath relPath),
          chunk.contentHash ≠ env.hashContent content) := by
  rw [mem_filesToReindex_iff]
  constructor
  · rintro ⟨relPath', hmem', habs, content', hread', hcond⟩
    have hc : content = content' := by injection hread.symm.trans hread'
    rw [← hc] at hcond
    exact hcond
  · intro hcond
    exact ⟨relPath, hmem, rfl, content, hread, hcond⟩

/-- Witness for C6: one changed file whose single stored chunk has a stale
hash, so it is scheduled for re-indexing. -/
theorem updateRepository_reindex_condition_witness :
    ("a.ts" ∈ ["a.ts"]) ∧
    ((fun _ => some "new") (absolutePathOf "repo" "a.ts") = some "new") ∧
    absolutePathOf "repo" "a.ts" ∈ filesToReindex
      { repoPath := "repo", gitDiff := some ["a.ts"],
        readFile := fun _ => some "new",
        hashContent := fun s => s,
        getChunksByFile := fun _ =>
          [{ filePath := "repo/a.ts", symbolName := none, symbolType := "function",
             content := "old", contentHash := "old", startLine := 1, endLine := 1,
             language := "typescript" }],
        parserForExt := fun _ => true,
        chunkFile := fun _ _ => [] } ["a.ts"] :=
  ⟨List.mem_singleton.mpr rfl, rfl,
   (updateRepository_reindex_condition
      { repoPath := "repo", gitDiff := some ["a.ts"],
        readFile := fun _ => some "new",
        hashContent := fun s => s,
        getChunksByFile := fun _ =>
          [{ filePath := "repo/a.ts", symbolName := none, symbolType := "function",
             content := "old", contentHash := "old", startLine := 1, endLine := 1,
             language := "typescript" }],
        parserForExt := fun _ => true,
        chunkFile := fun _ _ => [] }
      ["a.ts"] "a.ts" "new" (List.mem_singleton.mpr rfl) rfl).mpr
     (Or.inr ⟨_, List.mem_singleton.mpr rfl, by decide⟩)⟩

/-- C10: when the git diff reports zero changed paths, updateRepository
returns all-zero stats and performs no chunk-table mutation. -/
theorem updateRepository_no_changes (env : UpdateEnv)
    (h : env.gitDiff = some []) :
    updateRepository env = UpdateOutcome.updated
      { filesDiscovered := 0, filesProcessed := 0, filesFailed := 0,
        chunksCreated := 0 } [] := by
  rw [updateRepository, h]
  rfl

/-- Witness for C10: a concrete environment whose git diff is empty. -/
theorem updateRepository_no_changes_witness :
    (({ repoPath := "repo", gitDiff := some [], readFile := fun _ => none,
        hashContent := fun s => s, getChunksByFile := fun _ => [],
        parserForExt := fun _ => false,
        chunkFile := fun _ _ => [] } : UpdateEnv).gitDiff = some []) ∧
    updateRepository
      { repoPath := "repo", gitDiff := some [], readFile := fun _ => none,
        hashContent := fun s => s, getChunksByFile := fun _ => [],
        parserForExt := fun _ => false, chunkFile := fun _ _ => [] } =
      UpdateOutcome.updated
        { filesDiscovered := 0, filesProcessed := 0, filesFailed := 0,
          chunksCreated := 0 } [] :=
  ⟨rfl, updateRepository_no_changes _ rfl⟩

/-- Opaque deserialized BM25 index value. -/
structure OramaDB where
  data : List Nat
deriving DecidableEq, Repr

/-- Environment of the BM25 persistence layer: file accessibility check,
raw read and binary deserialization, each of which can fail. -/
structure PersistEnv where
  access : String → Bool
  readFile : String → Option (List Nat)
  restore : List Nat → Option OramaDB

/-- loadBM25Index: access check, raw read and restore inside one try block
whose catch returns null; every failure kind collapses to the same null. -/
def loadBM25Index (env : PersistEnv) (path : String) : Option OramaDB :=
  if env.access path then
    match env.readFile path with
    | none => none
    | some raw =>
        match env.restore raw with
        | none => none
        | some db => some db
  else none

/-- C7 counterexample: with the file missing and with the file present but
failing to deserialize, loadBM25Index returns the same value (null), so the
two failure kinds are not distinguishable to the caller. -/
theorem loadBM25Index_failures_indistinguishable :
    loadBM25Index
        { access := fun _ => false, readFile := fun _ => none,
          restore := fun _ => none } "bm25.msp" = none ∧
    loadBM25Index
        { access := fun _ => true, readFile := fun _ => some [1, 2, 3],
          restore := fun _ => none } "bm25.msp" = none ∧
    loadBM25Index
        { access := fun _ => false, readFile := fun _ => none,
          restore := fun _ => none } "bm25.msp" =
      loadBM25Index
        { access := fun _ => true, readFile := fun _ => some [1, 2, 3],
          restore := fun _ => none } "bm25.msp" :=
  ⟨rfl, rfl, rfl⟩

/-- C7 (amended): loadBM25Index returns null both when the index file is
missing and when deserialization of an existing file fails; the caller sees
the same null in both cases, so the two failure kinds are not
distinguishable. -/
theorem loadBM25Index_null_on_failure (env : PersistEnv) (path : String) :
    (env.access path = false → loadBM25Index env path = none) ∧
    (∀ raw, env.access path = true → env.readFile path = some raw →
      env.restore raw = none → loadBM25Index env path = none) := by
  constructor
  · intro h
    rw [loadBM25Index, h]
    simp
  · intro raw h1 h2 h3
    rw [loadBM25Index, h1, if_pos rfl, h2]
    dsimp only
    rw [h3]

/-- Witness for C7: the amended theorem applied to the missing-file and the
corrupt-file environments. -/
theorem loadBM25Index_null_on_failure_witness :
    loadBM25Index
        { access := fun _ => false, readFile := fun _ => none,
          restore := fun _ => none } "idx.msp" = none ∧
    loadBM25Index
        { access := fun _ => true, readFile := fun _ => some [7],
          restore := fun _ => none } "idx.msp" = none :=
  ⟨(loadBM25Index_null_on_failure
      { access := fun _ => false, readFile := fun _ => none,
        restore := fun _ => none } "idx.msp").1 rfl,
   (loadBM25Index_null_on_failure
      { access := fun _ => true, readFile := fun _ => some [7],
        restore := fun _ => none } "idx.msp").2 [7] rfl rfl rfl⟩

/-- File-filter configuration of the repository walker as it exists at run
time.  The TypeScript interface declares both fields as always present, but
the object spread in discoverFiles can leave a field holding the value
undefined, so each field is an Option with none standing for undefined. -/
structure FileFilterConfig where
  maxFileSizeBytes : Option Nat
  generatedDirs : Option (List String)
deriving DecidableEq, Repr

/-- Default walker configuration: 500 KB size cap. -/
def DEFAULT_CONFIG : FileFilterConfig :=
  { maxFileSizeBytes := some (500 * 1024),
    generatedDirs := some ["node_modules/", "dist/", "build/"] }

/-- Partial configuration accepted by discoverFiles.  Each field is doubly
optional: the outer none means the key is absent from the object, while some
none means the key is present holding the value undefined (the shape
indexRepository passes when no size limit is given). -/
structure PartialFileFilterConfig where
  maxFileSizeBytes : Option (Option Nat) := none
  generatedDirs : Option (Option (List String)) := none

/-- Object-spread merge of the default configuration with a caller-supplied
partial configuration: a key that is absent leaves the default in place,
while a key that is present overwrites it, even with undefined. -/
def mergeConfig (config : Option PartialFileFilterConfig) : FileFilterConfig :=
  match config with
  | none => DEFAULT_CONFIG
  | some c =>
      { maxFileSizeBytes := c.maxFileSizeBytes.getD DEFAULT_CONFIG.maxFileSizeBytes,
        generatedDirs := c.generatedDirs.getD DEFAULT_CONFIG.generatedDirs }

/-- JavaScript relational comparison size > bound: every comparison with
undefined is false, so an undefined bound disables the size check. -/
def jsGtUndef (size : Nat) (bound : Option Nat) : Bool :=
  match bound with
  | none => false
  | some b => size > b

/-- Environment of the repository walker: existence and directory checks, the
recursive ignore-filtered traversal, stat and the binary heuristic (the last
two can fail, which skips the file). -/
structure WalkEnv where
  pathExists : String → Bool
  isDirectory : String → Bool
  candidatesOf : String → List String
  stat : String → Option Nat
  isBinary : String → Option Bool

/-- Stage 4 per-file filter of discoverFiles: stat the file, reject when its
size exceeds the limit, then reject binaries; stat or heuristic errors skip
the file. -/
def fileFilterStep (env : WalkEnv) (fullConfig : FileFilterConfig)
    (filePath : String) : Option String :=
  match env.stat filePath with
  | none => none
  | some size =>
      if jsGtUndef size fullConfig.maxFileSizeBytes then none
      else
        match env.isBinary filePath with
        | none => none
        | some true => none
        | some false => some filePath

/-- Insertion step of the lexicographic sort of discovered paths. -/
def insertString (s : String) : List String → List String
  | [] => [s]
  | t :: ts => if s ≤ t then s :: t :: ts else t :: insertString s ts

/-- Sort of the accepted paths, modelling JavaScript Array.sort on strings. -/
def sortStrings : List String → List String
  | [] => []
  | s :: ss => insertString s (sortStrings ss)

/-- discoverFiles: validate the root, traverse, filter by size and binary
heuristic, and return the accepted paths sorted. -/
def discoverFiles (env : WalkEnv) (repoPath : String)
    (config : Option PartialFileFilterConfig) : Except String (List String) :=
  let fullConfig := mergeConfig config
  if env.pathExists repoPath = false then
    .error ("Repository path does not exist: " ++ repoPath)
  else if env.isDirectory repoPath = false then
    .error ("Repository path is not a directory: " ++ repoPath)
  else
    let candidateFiles := env.candidatesOf repoPath
    let filteredFiles := candidateFiles.filterMap (fileFilterStep env fullConfig)
    .ok (sortStrings filteredFiles)

theorem insertString_perm (s : String) :
    ∀ (l : List String), (insertString s l).Perm (s :: l) := by
  intro l
  induction l with
  | nil => exact List.Perm.refl _
  | cons t ts ih =>
      rw [insertString]
      by_cases h : s ≤ t
      · rw [if_pos h]
      · rw [if_neg h]
        exact (ih.cons t).trans (List.Perm.swap s t ts)

theorem sortStrings_perm : ∀ (l : List String), (sortStrings l).Perm l := by
  intro l
  induction l with
  | nil => exact List.Perm.refl _
  | cons s ss ih =>
      rw [sortStrings]
      exact (insertString_perm s _).trans (ih.cons s)

theorem fileFilterStep_eq_some {env : WalkEnv} {cfg : FileFilterConfig}
    {p q : String} (h : fileFilterStep env cfg p = some q) : q = p := by
  rw [fileFilterStep] at h
  rcases hs : env.stat p with _ | size
  · rw [hs] at h; exact absurd h (by simp)
  · rw [hs] at h
    dsimp only at h
    split at h
    · exact absurd h (by simp)
    · rcases hb : env.isBinary p with _ | b
      · rw [hb] at h; exact absurd h (by simp)
      · rw [hb] at h
        cases b
        · rw [Option.some.injEq] at h; exact h.symm
        · exact absurd h (by simp)

/-- C8 counterexample: when the maxFileSizeBytes key is present with value
undefined, which is the exact shape indexRepository passes when no size limit
is given, the comparison size > undefined is always false, the cap is
disabled, and a file one byte over the 500 KB default is accepted instead of
rejected. -/
theorem discoverFiles_undefined_limit_cex :
    discoverFiles
      { pathExists := fun _ => true, isDirectory := fun _ => true,
        candidatesOf := fun _ => ["b"],
        stat := fun _ => some (500 * 1024 + 1),
        isBinary := fun _ => some false } "repo"
      (some { maxFileSizeBytes := some none }) = .ok ["b"] := rfl

/-- C8 (amended): whenever the merged configuration carries a numeric limit
m, a candidate file of size m is accepted and one of size m + 1 is rejected;
omitting the config argument, or the maxFileSizeBytes key, leaves the default
limit of 500 * 1024 bytes in place; but a maxFileSizeBytes key present with
value undefined overwrites the default and disables the size cap, so every
stat-able non-binary candidate is accepted regardless of size. -/
theorem discoverFiles_size_boundary (env : WalkEnv) (repoPath f g u : String)
    (config : Option PartialFileFilterConfig) (m : Nat) (s : Nat)
    (hex : env.pathExists repoPath = true)
    (hdir : env.isDirectory repoPath = true)
    (hm : (mergeConfig config).maxFileSizeBytes = some m)
    (hf : f ∈ env.candidatesOf repoPath)
    (hstatf : env.stat f = some m)
    (hbinf : env.isBinary f = some false)
    (_hg : g ∈ env.candidatesOf repoPath)
    (hstatg : env.stat g = some (m + 1))
    (hu : u ∈ env.candidatesOf repoPath)
    (hstatu : env.stat u = some s)
    (hbinu : env.isBinary u = some false) :
    (∃ files, discoverFiles env repoPath config = .ok files ∧
      f ∈ files ∧ g ∉ files) ∧
    (mergeConfig none).maxFileSizeBytes = some (500 * 1024) ∧
    (mergeConfig (some {})).maxFileSizeBytes = some (500 * 1024) ∧
    (mergeConfig (some { maxFileSizeBytes := some none })).maxFileSizeBytes = none ∧
    (∃ files, discoverFiles env repoPath
        (some { maxFileSizeBytes := some none }) = .ok files ∧ u ∈ files) := by
  refine ⟨⟨sortStrings ((env.candidatesOf repoPath).filterMap
    (fileFilterStep env (mergeConfig config))), ?_, ?_, ?_⟩, rfl, rfl, rfl,
    ⟨sortStrings ((env.candidatesOf repoPath).filterMap
      (fileFilterStep env (mergeConfig (some { maxFileSizeBytes := some none })))),
      ?_, ?_⟩⟩
  · rw [discoverFiles, if_neg (by simp [hex]), if_neg (by simp [hdir])]
  · rw [(sortStrings_perm _).mem_iff, List.mem_filterMap]
    refine ⟨f, hf, ?_⟩
    rw [fileFilterStep, hstatf]
    dsimp only
    rw [hm, if_neg (by simp [jsGtUndef]), hbinf]
  · intro hgm
    rw [(sortStrings_perm _).mem_iff, List.mem_filterMap] at hgm
    obtain ⟨c, _, hstep⟩ := hgm
    have hcg : g = c := fileFilterStep_eq_some hstep
    subst hcg
    rw [fileFilterStep, hstatg] at hstep
    dsimp only at hstep
    rw [hm, if_pos (by simp [jsGtUndef])] at hstep
    exact absurd hstep (by simp)
  · rw [discoverFiles, if_neg (by simp [hex]), if_neg (by simp [hdir])]
  · rw [(sortStrings_perm _).mem_iff, List.mem_filterMap]
    refine ⟨u, hu, ?_⟩
    rw [fileFilterStep, hstatu]
    dsimp only
    rw [if_neg (by simp [jsGtUndef, mergeConfig]), hbinu]

/-- Witness for C8: three candidate files, one exactly at the default 500 KB
limit, one a byte over it, and one far over it that the undefined-valued key
nevertheless lets through. -/
theorem discoverFiles_size_boundary_witness :
    (({ pathExists := fun _ => true, isDirectory := fun _ => true,
        candidatesOf := fun _ => ["a", "b", "c"],
        stat := fun p => if p = "a" then some (500 * 1024)
          else if p = "b" then some (500 * 1024 + 1) else some (9 * 1024 * 1024),
        isBinary := fun _ => some false } : WalkEnv).pathExists "repo" = true) ∧
    ((mergeConfig none).maxFileSizeBytes = some (500 * 1024)) ∧
    ((∃ files, discoverFiles
        { pathExists := fun _ => true, isDirectory := fun _ => true,
          candidatesOf := fun _ => ["a", "b", "c"],
          stat := fun p => if p = "a" then some (500 * 1024)
            else if p = "b" then some (500 * 1024 + 1) else some (9 * 1024 * 1024),
          isBinary := fun _ => some false } "repo" none = .ok files ∧
        "a" ∈ files ∧ "b" ∉ files) ∧
      (mergeConfig none).maxFileSizeBytes = some (500 * 1024) ∧
      (mergeConfig (some {})).maxFileSizeBytes = some (500 * 1024) ∧
      (mergeConfig (some { maxFileSizeBytes := some none })).maxFileSizeBytes = none ∧
      (∃ files, discoverFiles
          { pathExists := fun _ => true, isDirectory := fun _ => true,
            candidatesOf := fun _ => ["a", "b", "c"],
            stat := fun p => if p = "a" then some (500 * 1024)
              else if p = "b" then some (500 * 1024 + 1) else some (9 * 1024 * 1024),
            isBinary := fun _ => some false } "repo"
          (some { maxFileSizeBytes := some none }) = .ok files ∧ "c" ∈ files)) :=
  ⟨rfl, rfl,
   discoverFiles_size_boundary _ "repo" "a" "b" "c" none (500 * 1024)
     (9 * 1024 * 1024) rfl rfl rfl (by decide) (by decide) rfl (by decide)
     (by decide) (by decide) (by decide) rfl⟩

/-- Lowercase hex digit of a nibble: digits for values below ten, the letters
a through f for ten to fifteen, and the digit zero out of range. -/
def hexDigit (n : Nat) : Char :=
  if n < 10 then Char.ofNat (48 + n)
  else if n < 16 then Char.ofNat (87 + n)
  else Char.ofNat 48

/-- The sixteen lowercase hex digit characters. -/
def hexDigitChars : List Char := (List.range 16).map hexDigit

/-- Truncation to 32 bits. -/
def m32 (x : Nat) : Nat := x % 4294967296

/-- Bitwise complement within 32 bits. -/
def not32 (x : Nat) : Nat := 4294967295 ^^^ x

/-- Right rotation of a 32-bit word. -/
def rotr32 (n x : Nat) : Nat := m32 ((x >>> n) ||| (x <<< (32 - n)))

/-- SHA-256 big sigma 0. -/
def bigSigma0 (x : Nat) : Nat := rotr32 2 x ^^^ rotr32 13 x ^^^ rotr32 22 x

/-- SHA-256 big sigma 1. -/
def bigSigma1 (x : Nat) : Nat := rotr32 6 x ^^^ rotr32 11 x ^^^ rotr32 25 x

/-- SHA-256 small sigma 0. -/
def smallSigma0 (x : Nat) : Nat := rotr32 7 x ^^^ rotr32 18 x ^^^ (x >>> 3)

/-- SHA-256 small sigma 1. -/
def smallSigma1 (x : Nat) : Nat := rotr32 17 x ^^^ rotr32 19 x ^^^ (x >>> 10)

/-- SHA-256 choice function. -/
def chFn (x y z : Nat) : Nat := (x &&& y) ^^^ (not32 x &&& z)

/-- SHA-256 majority function. -/
def majFn (x y z : Nat) : Nat := (x &&& y) ^^^ (x &&& z) ^^^ (y &&& z)

/-- The 64 SHA-256 round constants, written in decimal. -/
def sha256K : List Nat :=
  [1116352408, 1899447441, 3049323471, 3921009573, 961987163,
   1508970993, 2453635748, 2870763221, 3624381080, 310598401,
   607225278, 1426881987, 1925078388, 2162078206, 2614888103,
   3248222580, 3835390401, 4022224774, 264347078, 604807628,
   770255983, 1249150122, 1555081692, 1996064986, 2554220882,
   2821834349, 2952996808, 3210313671, 3336571891, 3584528711,
   113926993, 338241895, 666307205, 773529912, 1294757372,
   1396182291, 1695183700, 1986661051, 2177026350, 2456956037,
   2730485921, 2820302411, 3259730800, 3345764771, 3516065817,
   3600352804, 4094571909, 275423344, 430227734, 506948616,
   659060556, 883997877, 958139571, 1322822218, 1537002063,
   1747873779, 1955562222, 2024104815, 2227730452, 2361852424,
   2428436474, 2756734187, 3204031479, 3329325298]

/-- The SHA-256 initial hash value, written in decimal. -/
def sha256H0 : List Nat :=
  [1779033703, 3144134277, 1013904242, 2773480762,
   1359893119, 2600822924, 528734635, 1541459225]

/-- UTF-8 encoding of one character as byte values. -/
def utf8EncodeChar (c : Char) : List Nat :=
  let n := c.toNat
  if n < 0x80 then [n]
  else if n < 0x800 then
    [0xC0 ||| (n >>> 6), 0x80 ||| (n &&& 0x3F)]
  else if n < 0x10000 then
    [0xE0 ||| (n >>> 12), 0x80 ||| ((n >>> 6) &&& 0x3F), 0x80 ||| (n &&& 0x3F)]
  else
    [0xF0 ||| (n >>> 18), 0x80 ||| ((n >>> 12) &&& 0x3F),
     0x80 ||| ((n >>> 6) &&& 0x3F), 0x80 ||| (n &&& 0x3F)]

/-- UTF-8 encoding of a string as byte values. -/
def utf8Bytes (s : String) : List Nat := (s.toList.map utf8EncodeChar).flatten

/-- Big-endian 8-byte encoding of a 64-bit length. -/
def bytesOfNat64 (n : Nat) : List Nat :=
  [(n >>> 56) &&& 0xFF, (n >>> 48) &&& 0xFF, (n >>> 40) &&& 0xFF,
   (n >>> 32) &&& 0xFF, (n >>> 24) &&& 0xFF, (n >>> 16) &&& 0xFF,
   (n >>> 8) &&& 0xFF, n &&& 0xFF]

/-- SHA-256 message padding to a multiple of 64 bytes. -/
def sha256Pad (msg : List Nat) : List Nat :=
  let len := msg.length
  let padZeros := (64 - ((len + 9) % 64)) % 64
  msg ++ [0x80] ++ List.replicate padZeros 0 ++ bytesOfNat64 (8 * len)

/-- Big-endian 32-bit words of a byte list. -/
def wordsOfBytes : List Nat → List Nat
  | b0 :: b1 :: b2 :: b3 :: rest =>
      ((((b0 <<< 8) ||| b1) <<< 8 ||| b2) <<< 8 ||| b3) :: wordsOfBytes rest
  | _ => []

/-- One extension step of the SHA-256 message schedule. -/
def scheduleStep (w : List Nat) : List Nat :=
  let t := w.length
  w ++ [m32 (smallSigma1 (w.getD (t - 2) 0) + w.getD (t - 7) 0 +
    smallSigma0 (w.getD (t - 15) 0) + w.getD (t - 16) 0)]

/-- Iterated extension of the message schedule. -/
def buildSchedule (w : List Nat) : Nat → List Nat
  | 0 => w
  | n + 1 => buildSchedule (scheduleStep w) n

/-- Working state of the SHA-256 compression function. -/
structure Sha256State where
  a : Nat
  b : Nat
  c : Nat
  d : Nat
  e : Nat
  f : Nat
  g : Nat
  h : Nat

/-- One round of the SHA-256 compression function, taking the round constant
paired with the schedule word. -/
def compressStep (st : Sha256State) (kw : Nat × Nat) : Sha256State :=
  let t1 := m32 (st.h + bigSigma1 st.e + chFn st.e st.f st.g + kw.1 + kw.2)
  let t2 := m32 (bigSigma0 st.a + majFn st.a st.b st.c)
  { a := m32 (t1 + t2), b := st.a, c := st.b, d := st.c,
    e := m32 (st.d + t1), f := st.e, g := st.f, h := st.g }

/-- Processing of one 64-byte block. -/
def processBlock (hs : List Nat) (block : List Nat) : List Nat :=
  let w := buildSchedule (wordsOfBytes block) 48
  let init : Sha256State :=
    { a := hs.getD 0 0, b := hs.getD 1 0, c := hs.getD 2 0, d := hs.getD 3 0,
      e := hs.getD 4 0, f := hs.getD 5 0, g := hs.getD 6 0, h := hs.getD 7 0 }
  let st := (sha256K.zip w).foldl compressStep init
  [m32 (hs.getD 0 0 + st.a), m32 (hs.getD 1 0 + st.b), m32 (hs.getD 2 0 + st.c),
   m32 (hs.getD 3 0 + st.d), m32 (hs.getD 4 0 + st.e), m32 (hs.getD 5 0 + st.f),
   m32 (hs.getD 6 0 + st.g), m32 (hs.getD 7 0 + st.h)]

/-- Split a byte list into 64-byte blocks. -/
def toBlocks (l : List Nat) : List (List Nat) :=
  if h : l = [] then [] else l.take 64 :: toBlocks (l.drop 64)
termination_by l.length
decreasing_by
  rw [List.length_drop]
  have : 0 < l.length := List.length_pos.mpr h
  omega

/-- The eight 32-bit words of the SHA-256 digest of a byte message. -/
def sha256Words (msg : List Nat) : List Nat :=
  (toBlocks (sha256Pad msg)).foldl processBlock sha256H0

/-- The eight hex characters of one 32-bit word, most significant first. -/
def wordHexChars (w : Nat) : List Char :=
  (List.range 8).map (fun i => hexDigit ((w >>> (4 * (7 - i))) &&& 15))

/-- Lowercase hex SHA-256 digest of a byte message, as produced by
createHash('sha256').digest('hex'). -/
def sha256Hex (msg : List Nat) : String :=
  String.mk ((sha256Words msg).map wordHexChars).flatten

/-- Input record of the cache key generator. -/
structure CacheKeyInput where
  query : String
  chunkIds : List String
  provider : String
  model : String
  maxTokens : Option Nat := none

/-- JavaScript String.prototype.toLowerCase, applied character-wise. -/
def jsToLower (s : String) : String := String.mk (s.toList.map Char.toLower)

/-- JavaScript or-default x || d: the default replaces both a missing and a
zero (falsy) value. -/
def jsOrDefault (x : Option Nat) (d : Nat) : Nat :=
  match x with
  | none => d
  | some n => if n = 0 then d else n

/-- The normalized record hashed by generateCacheKey. -/
structure NormalizedCacheKey where
  query : String
  chunkIds : List String
  provider : String
  model : String
  maxTokens : Nat
deriving DecidableEq, Repr

/-- Normalization step of generateCacheKey: trimmed lowercased query, sorted
copy of the chunk ids, provider and model as given, defaulted maxTokens. -/
def normalizeCacheKey (input : CacheKeyInput) : NormalizedCacheKey :=
  { query := jsToLower (jsTrim input.query),
    chunkIds := sortStrings input.chunkIds,
    provider := input.provider,
    model := input.model,
    maxTokens := jsOrDefault input.maxTokens 4096 }

/-- JSON escaping of one character. -/
def jsonEscapeChar (c : Char) : List Char :=
  if c = '"' then ['\\', '"']
  else if c = '\\' then ['\\', '\\']
  else if c = '\n' then ['\\', 'n']
  else if c = '\r' then ['\\', 'r']
  else if c = '\t' then ['\\', 't']
  else if c = '\x08' then ['\\', 'b']
  else if c = '\x0c' then ['\\', 'f']
  else if c.toNat < 32 then
    ['\\', 'u', '0', '0', hexDigit (c.toNat / 16), hexDigit (c.toNat % 16)]
  else [c]

/-- JSON serialization of a string literal. -/
def jsonString (s : String) : String :=
  String.mk ('"' :: (s.toList.map jsonEscapeChar).flatten ++ ['"'])

/-- JSON serialization of an array of strings. -/
def jsonStringArray (l : List String) : String :=
  "[" ++ String.intercalate "," (l.map jsonString) ++ "]"

/-- fast-json-stable-stringify of the normalized record: the keys are
serialized in sorted order chunkIds, maxTokens, model, provider, query. -/
def stableStringify (n : NormalizedCacheKey) : String :=
  "\x7b\"chunkIds\":" ++ jsonStringArray n.chunkIds ++
    ",\"maxTokens\":" ++ toString n.maxTokens ++
    ",\"model\":" ++ jsonString n.model ++
    ",\"provider\":" ++ jsonString n.provider ++
    ",\"query\":" ++ jsonString n.query ++ "\x7d"

/-- generateCacheKey: normalize, serialize with stable stringify, hash with
SHA-256 and emit lowercase hex. -/
def generateCacheKey (input : CacheKeyInput) : String :=
  sha256Hex (utf8Bytes (stableStringify (normalizeCacheKey input)))

theorem sortStrings_sorted :
    ∀ (l : List String), (sortStrings l).Pairwise (· ≤ ·) := by
  have hins : ∀ (s : String) (l : List String), l.Pairwise (· ≤ ·) →
      (insertString s l).Pairwise (· ≤ ·) := by
    intro s l
    induction l with
    | nil => intro _; simp [insertString]
    | cons t ts ih =>
        intro h
        rw [List.pairwise_cons] at h
        rw [insertString]
        by_cases hst : s ≤ t
        · rw [if_pos hst]
          refine List.Pairwise.cons ?_ (List.Pairwise.cons h.1 h.2)
          intro z hz
          rcases List.mem_cons.mp hz with hz | hz
          · rw [hz]; exact hst
          · exact le_trans hst (h.1 z hz)
        · rw [if_neg hst]
          refine List.Pairwise.cons ?_ (ih h.2)
          intro z hz
          rcases List.mem_cons.mp ((insertString_perm s ts).mem_iff.mp hz) with hz | hz
          · rw [hz]; exact le_of_lt (not_le.mp hst)
          · exact h.1 z hz
  intro l
  induction l with
  | nil => simp [sortStrings]
  | cons s ss ih =>
      rw [sortStrings]
      exact hins s _ ih

theorem sortStrings_eq_of_perm {l1 l2 : List String} (h : l1.Perm l2) :
    sortStrings l1 = sortStrings l2 :=
  List.eq_of_perm_of_sorted
    ((sortStrings_perm l1).trans (h.trans (sortStrings_perm l2).symm))
    (sortStrings_sorted l1) (sortStrings_sorted l2)

theorem jsOrDefault_eq_of_getD_eq {x y : Option Nat}
    (h : x.getD 4096 = y.getD 4096) : jsOrDefault x 4096 = jsOrDefault y 4096 := by
  rcases x with _ | a <;> rcases y with _ | b <;>
    simp [Option.getD] at h <;> simp [jsOrDefault]
  · rw [← h]; simp
  · rw [h]; simp
  · rw [h]

theorem processBlock_length (hs block : List Nat) :
    (processBlock hs block).length = 8 := rfl

theorem sha256Words_length (msg : List Nat) : (sha256Words msg).length = 8 := by
  rw [sha256Words]
  have hgen : ∀ (blocks : List (List Nat)) (hs : List Nat), hs.length = 8 →
      (blocks.foldl processBlock hs).length = 8 := by
    intro blocks
    induction blocks with
    | nil => intro hs h; exact h
    | cons b bs ih => intro hs _; exact ih _ (processBlock_length hs b)
  exact hgen _ sha256H0 rfl

theorem wordHexChars_length (w : Nat) : (wordHexChars w).length = 8 := by
  simp [wordHexChars]

theorem sha256Hex_length (msg : List Nat) : (sha256Hex msg).length = 64 := by
  have hjoin : ∀ (ws : List Nat),
      ((ws.map wordHexChars).flatten).length = 8 * ws.length := by
    intro ws
    induction ws with
    | nil => simp
    | cons w rest ih =>
        rw [List.map_cons, List.flatten_cons, List.length_append, ih,
          wordHexChars_length, List.length_cons]
        ring
  show ((sha256Words msg).map wordHexChars).flatten.length = 64
  rw [hjoin, sha256Words_length]

theorem hexDigit_mem (n : Nat) : hexDigit n ∈ hexDigitChars := by
  rcases Nat.lt_or_ge n 16 with h | h
  · exact List.mem_map.mpr ⟨n, List.mem_range.mpr h, rfl⟩
  · have h0 : hexDigit n = Char.ofNat 48 := by
      rw [hexDigit, if_neg (by omega), if_neg (by omega)]
    rw [h0]
    exact List.mem_map.mpr ⟨0, List.mem_range.mpr (by omega), by rw [hexDigit]; simp⟩

theorem sha256Hex_mem_hex (msg : List Nat) :
    ∀ c ∈ (sha256Hex msg).toList, c ∈ hexDigitChars := by
  intro c hc
  have hc' : c ∈ ((sha256Words msg).map wordHexChars).flatten := hc
  obtain ⟨l, hl, hcl⟩ := List.mem_flatten.mp hc'
  obtain ⟨w, _, hw⟩ := List.mem_map.mp hl
  rw [← hw] at hcl
  obtain ⟨i, _, hi⟩ := List.mem_map.mp hcl
  rw [← hi]
  exact hexDigit_mem _

/-- C9: generateCacheKey is deterministic and normalizing: two inputs that
agree on provider, model and defaulted maxTokens, whose chunkIds are
permutations of each other and whose queries agree after trimming and
lowercasing, hash to the same key, which is 64 lowercase hex characters. -/
theorem generateCacheKey_normalizes (i1 i2 : CacheKeyInput)
    (hprov : i1.provider = i2.provider) (hmodel : i1.model = i2.model)
    (hmax : i1.maxTokens.getD 4096 = i2.maxTokens.getD 4096)
    (hperm : i1.chunkIds.Perm i2.chunkIds)
    (hquery : jsToLower (jsTrim i1.query) = jsToLower (jsTrim i2.query)) :
    generateCacheKey i1 = generateCacheKey i2 ∧
    (generateCacheKey i1).length = 64 ∧
    ∀ c ∈ (generateCacheKey i1).toList, c ∈ hexDigitChars := by
  have hnorm : normalizeCacheKey i1 = normalizeCacheKey i2 := by
    rw [normalizeCacheKey, normalizeCacheKey, hquery, hprov, hmodel,
      sortStrings_eq_of_perm hperm, jsOrDefault_eq_of_getD_eq hmax]
  exact ⟨by rw [generateCacheKey, generateCacheKey, hnorm],
    sha256Hex_length _, sha256Hex_mem_hex _⟩

/-- Witness for C9: two inputs differing in chunk-id order, query whitespace
and case, and present-versus-absent default maxTokens. -/
theorem generateCacheKey_normalizes_witness :
    ("Anthropic" = "Anthropic") ∧
    ((["b", "a"] : List String).Perm ["a", "b"]) ∧
    (jsToLower (jsTrim " Foo") = jsToLower (jsTrim "foo ")) ∧
    generateCacheKey
        { query := " Foo", chunkIds := ["b", "a"], provider := "Anthropic",
          model := "claude", maxTokens := none } =
      generateCacheKey
        { query := "foo ", chunkIds := ["a", "b"], provider := "Anthropic",
          model := "claude", maxTokens := some 4096 } ∧
    (generateCacheKey
        { query := " Foo", chunkIds := ["b", "a"], provider := "Anthropic",
          model := "claude", maxTokens := none }).length = 64 :=
  ⟨rfl, List.Perm.swap _ _ _, by decide,
   (generateCacheKey_normalizes
     { query := " Foo", chunkIds := ["b", "a"], provider := "Anthropic",
       model := "claude", maxTokens := none }
     { query := "foo ", chunkIds := ["a", "b"], provider := "Anthropic",
       model := "claude", maxTokens := some 4096 } rfl rfl rfl
     (List.Perm.swap _ _ _) (by decide)).1,
   (generateCacheKey_normalizes
     { query := " Foo", chunkIds := ["b", "a"], provider := "Anthropic",
       model := "claude", maxTokens := none }
     { query := "foo ", chunkIds := ["a", "b"], provider := "Anthropic",
       model := "claude", maxTokens := some 4096 } rfl rfl rfl
     (List.Perm.swap _ _ _) (by decide)).2.1⟩

end Oracle
